import Mathlib

/-!
Verification of the static-analysis core of an RPG source-code explainer.

The development shallowly embeds the analysis layer: Python strings become
Lean `String`s manipulated through small helpers that mirror Python string
primitives (slicing by index, `strip`, `lower`, `upper`, `isalpha`,
truthiness), the external parser's syntax tree becomes the inductive
`Node`, and every extraction function of the analysis module becomes a
Lean function of the same name (module-private underscores dropped).
The Python helpers are ASCII-faithful: `lower`/`upper` case-map the ASCII
range, `strip` removes the ASCII whitespace characters recognised by
Python's `str.strip`, which is exact for the fixed-form column layouts the
analyzer manipulates.
-/

/-! ## Python string primitives -/

/-- Characters Python's `str.strip` removes: space, tab, newline, carriage
return, vertical tab, form feed (ASCII fragment of `str.isspace`). -/
def pyIsSpace (c : Char) : Bool :=
  c.toNat = 32 || c.toNat = 9 || c.toNat = 10 || c.toNat = 13 || c.toNat = 11 || c.toNat = 12

/-- Python `str.strip` on a character list: drop whitespace from both ends. -/
def pyStripL (l : List Char) : List Char :=
  ((l.dropWhile pyIsSpace).reverse.dropWhile pyIsSpace).reverse

/-- Python `s.strip()`. -/
def pyStrip (s : String) : String :=
  ⟨pyStripL s.toList⟩

/-- ASCII lower-casing of one character, as Python `str.lower` acts on the
ASCII range. -/
def pyCharLower (c : Char) : Char :=
  if 65 ≤ c.toNat ∧ c.toNat ≤ 90 then Char.ofNat (c.toNat + 32) else c

/-- ASCII upper-casing of one character, as Python `str.upper` acts on the
ASCII range. -/
def pyCharUpper (c : Char) : Char :=
  if 97 ≤ c.toNat ∧ c.toNat ≤ 122 then Char.ofNat (c.toNat - 32) else c

/-- Python `s.lower()`. -/
def pyLower (s : String) : String :=
  ⟨s.toList.map pyCharLower⟩

/-- Python `s.upper()`. -/
def pyUpper (s : String) : String :=
  ⟨s.toList.map pyCharUpper⟩

/-- Python `len(s)`: the number of characters. -/
def pyLen (s : String) : Nat :=
  s.toList.length

/-- Python `s[a:b]` for non-negative bounds: characters `a` to `b - 1`,
clamped to the string's length. -/
def pySlice (s : String) (a b : Nat) : String :=
  ⟨(s.toList.drop a).take (b - a)⟩

/-- Python `s.isalpha()`: non-empty and every character alphabetic. -/
def pyIsAlpha (s : String) : Bool :=
  !s.toList.isEmpty && s.toList.all Char.isAlpha

/-- Python `s.startswith("*")`. -/
def pyStartsWithStar (s : String) : Bool :=
  match s.toList with
  | c :: _ => c = '*'
  | [] => false

/-- Python `s.startswith(p)`. -/
def pyStartsWith (p s : String) : Bool :=
  List.isPrefixOf p.toList s.toList

/-- Python truthiness of an optional string: `None` and `""` are falsy.
Used to mirror `if name:` guards on `str | None` values. -/
def truthyOpt (o : Option String) : Option String :=
  match o with
  | some s => if s = "" then none else some s
  | none => none

/-- Insertion into a Python `dict` modelled as an association list:
an existing key keeps its position and gets the new value (last write
wins), a new key is appended. -/
def dictInsert {α : Type} (d : List (String × α)) (k : String) (v : α) : List (String × α) :=
  if d.any (fun kv => kv.1 = k) then
    d.map (fun kv => if kv.1 = k then (k, v) else kv)
  else
    d ++ [(k, v)]

/-! ## The syntax tree contract

A tree-sitter node exposes a kind tag (`type` in the source), byte
offsets into the source buffer, an ordered child list, and per-child
field names backing `child_by_field_name`. -/

inductive Node where
  | mk (kind : String) (startByte endByte : Nat) (fieldNames : List (Option String)) (children : List Node)

def Node.type : Node → String
  | .mk k _ _ _ _ => k

def Node.startByte : Node → Nat
  | .mk _ a _ _ _ => a

def Node.endByte : Node → Nat
  | .mk _ _ b _ _ => b

def Node.fieldNames : Node → List (Option String)
  | .mk _ _ _ f _ => f

def Node.children : Node → List Node
  | .mk _ _ _ _ cs => cs

/-- Tree-sitter `child_by_field_name`: the first child declared under the
given field name. -/
def Node.childByFieldName (n : Node) (f : String) : Option Node :=
  ((n.fieldNames.zip n.children).filter (fun p => p.1 = some f)).head?.map (·.2)

/-- Models `node_text`: the slice of the source buffer between the node's start
and end offsets (the source stores the text as `str` and slices it with
the node's offsets). -/
def node_text (n : Node) (source : String) : String :=
  pySlice source n.startByte n.endByte

mutual

/-- Models `iter_nodes`: pre-order traversal (a node before its children,
children left to right); the analysis never consumes the parent
component, so only the node sequence is modelled. -/
def Node.preorder : Node → List Node
  | .mk k a b f cs => .mk k a b f cs :: preorderList cs

def preorderList : List Node → List Node
  | [] => []
  | n :: ns => n.preorder ++ preorderList ns

end

/-- Models `find_nodes_by_type`: every descendant (the node itself included)
whose kind tag matches. -/
def find_nodes_by_type (n : Node) (t : String) : List Node :=
  n.preorder.filter (fun c => c.type = t)

/-- A parsed source unit: path, syntax-tree root, source text. -/
structure ParsedFile where
  path : String
  root : Node
  source : String

/-! ## Extraction result records (the dataclasses of the analysis module) -/

structure RPGParameter where
  name : String
  type : Option String := none
  attributes : List (String × List String) := []
deriving DecidableEq, Repr

structure RPGFileDef where
  name : String
  keywords : List (String × List String) := []
deriving DecidableEq, Repr

structure RPGConstant where
  name : String
  value_preview : String := ""
deriving DecidableEq, Repr

structure RPGDataStructure where
  name : String
  subfields : List String := []
deriving DecidableEq, Repr

structure RPGSubroutine where
  name : String
  calls_internal : List String := []
  calls_external : List String := []
  uses_files : List String := []
deriving DecidableEq, Repr

structure RPGProcedure where
  name : String
  params : List RPGParameter := []
  returns : Option String := none
  calls_internal : List String := []
  calls_external : List String := []
  uses_files : List String := []
deriving DecidableEq, Repr

structure RPGFixedSpec where
  spec_type : String
  raw_line : String
  name : Option String := none
  keywords : List (String × String) := []
deriving DecidableEq, Repr

structure RPGFile where
  path : String
  procedures : List RPGProcedure := []
  subroutines : List RPGSubroutine := []
  file_defs : List RPGFileDef := []
  constants : List RPGConstant := []
  data_structures : List RPGDataStructure := []
  prototypes : List String := []
  fixed_h_specs : List RPGFixedSpec := []
  fixed_f_specs : List RPGFixedSpec := []
  fixed_d_specs : List RPGFixedSpec := []
  fixed_c_specs : List RPGFixedSpec := []
  fixed_p_specs : List RPGFixedSpec := []
deriving DecidableEq, Repr

structure ProgramIndex where
  files : List RPGFile := []
deriving DecidableEq, Repr

/-! ## Entity extractors -/

mutual

/-- Models `_get_identifier_name`: (a) an identifier-kind node names itself;
(b) else the child under the "name" field; (c) else the first child of an
identifier kind, recursing once through `identifier_or_star`. -/
def getIdentifierName : Node → String → Option String
  | .mk k a b f cs, source =>
    if k = "identifier" ∨ k = "special_identifier" then
      some (node_text (.mk k a b f cs) source)
    else
      match (Node.mk k a b f cs).childByFieldName "name" with
      | some nameNode => some (node_text nameNode source)
      | none => firstIdentChild cs source

/-- The first-identifier-child scan inside `_get_identifier_name`: Python
returns from inside the loop on the first child whose kind is
`identifier`, `special_identifier` or `identifier_or_star`. -/
def firstIdentChild : List Node → String → Option String
  | [], _ => none
  | c :: rest, source =>
    if c.type = "identifier" ∨ c.type = "special_identifier" ∨ c.type = "identifier_or_star" then
      if c.type = "identifier_or_star" then getIdentifierName c source
      else some (node_text c source)
    else firstIdentChild rest source

end

/-- Models `_extract_type_spec`: text of the first `type_spec` node in pre-order. -/
def extract_type_spec (n : Node) (source : String) : Option String :=
  (find_nodes_by_type n "type_spec").head?.map (node_text · source)

/-- The identifier kinds checked inside `_extract_attributes`. -/
def attrIdentKind (t : String) : Bool :=
  t = "identifier" || t = "special_identifier"

/-- The delimiter-token kinds skipped inside `_extract_attributes`. -/
def attrDelimKind (t : String) : Bool :=
  t = "(" || t = ")" || t = "," || t = ":"

/-- The per-attribute loop body of `_extract_attributes`: walk the
attribute node's children threading the pending key (first identifier
kind, lower-cased) and the argument accumulator (text of every
non-identifier, non-delimiter child with non-empty text). -/
def processAttrChildren (source : String) : List Node → Option String → List String → Option String × List String
  | [], nameAcc, args => (nameAcc, args)
  | c :: rest, nameAcc, args =>
    if attrIdentKind c.type then
      processAttrChildren source rest (if nameAcc.isNone then some (pyLower (node_text c source)) else nameAcc) args
    else if attrDelimKind c.type then
      processAttrChildren source rest nameAcc args
    else
      let argText := node_text c source
      processAttrChildren source rest nameAcc (if argText = "" then args else args ++ [argText])

/-- Models `_extract_attributes`: for each direct child of kind `attribute`,
derive a key and argument list and store them dict-style (a truthy key
required; last same-key attribute wins). -/
def extract_attributes (n : Node) (source : String) : List (String × List String) :=
  n.children.foldl
    (fun attrs c =>
      if c.type = "attribute" then
        match processAttrChildren source c.children none [] with
        | (some nm, args) => if nm = "" then attrs else dictInsert attrs nm args
        | (none, _) => attrs
      else attrs)
    []

/-- Models `_extract_parameters`: each `parameter_definition` under each
`procedure_interface`, kept when its name resolves truthy. -/
def extract_parameters (proc_node : Node) (source : String) : List RPGParameter :=
  (find_nodes_by_type proc_node "procedure_interface").flatMap
    (fun pi =>
      (find_nodes_by_type pi "parameter_definition").filterMap
        (fun pd =>
          match truthyOpt (getIdentifierName pd source) with
          | some name => some { name, type := extract_type_spec pd source, attributes := extract_attributes pd source }
          | none => none))

/-- Models `_extract_return_type`: the first direct `type_spec` child scanning
the `procedure_interface` descendants in order. -/
def extract_return_type (proc_node : Node) (source : String) : Option String :=
  ((find_nodes_by_type proc_node "procedure_interface").flatMap
    (fun pi => pi.children.filter (fun c => c.type = "type_spec"))).head?.map (node_text · source)

/-- The walk of `_find_call_targets`: pre-order sequence with the
previously visited node threaded; a `paren_group` immediately after an
`identifier` not starting with `%` yields that identifier's text. -/
def callTargetsWalk (source : String) : Option Node → List Node → List String
  | _, [] => []
  | prevNode, c :: rest =>
    let tail := callTargetsWalk source (some c) rest
    match prevNode with
    | some p =>
      if c.type = "paren_group" ∧ p.type = "identifier" ∧ ¬ pyStartsWith "%" (node_text p source) then
        node_text p source :: tail
      else tail
    | none => tail

/-- Models `_find_call_targets` over a subtree. -/
def find_call_targets (n : Node) (source : String) : List String :=
  callTargetsWalk source none n.preorder

/-- The walk of `_find_file_references`: collect identifier texts whose
lower-casing is a known file name, deduplicated by exact text. -/
def fileRefsWalk (source : String) (lowerNames : List String) : List Node → List String → List String
  | [], refs => refs
  | c :: rest, refs =>
    let refs2 :=
      if c.type = "identifier" then
        let name := node_text c source
        if lowerNames.contains (pyLower name) ∧ ¬ refs.contains name then refs ++ [name] else refs
      else refs
    fileRefsWalk source lowerNames rest refs2

/-- Models `_find_file_references` over a subtree, given the declared file-name
set. -/
def find_file_references (n : Node) (source : String) (file_names : List String) : List String :=
  fileRefsWalk source (file_names.map pyLower) n.preorder []

/-! ## Fixed-form column extractors

Each `_parse_fixed_*_spec` computes `raw_line = node_text(node, source)`
and then works on the line text alone; the line-level logic is factored
into `*_line` functions so the column behaviour can be stated directly
over line strings. -/

/-- Models `_parse_fixed_spec` (H and P specs): any non-empty raw line yields a
bare record. -/
def parse_fixed_spec_line (spec_type : String) (raw_line : String) : Option RPGFixedSpec :=
  if raw_line = "" then none
  else some { spec_type, raw_line }

/-- Models `_parse_fixed_f_spec` on the raw line: minimum length 17, name in
columns 7-16 (0-indexed 6..15) stripped, a leading `*` in the name field
marks a comment line (record kept, name forced absent). -/
def parse_fixed_f_spec_line (raw_line : String) : Option RPGFixedSpec :=
  if raw_line = "" ∨ pyLen raw_line < 17 then none
  else
    let name : Option String := if pyLen raw_line > 6 then some (pyStrip (pySlice raw_line 6 16)) else none
    match truthyOpt name with
    | some nm =>
      if pyStartsWithStar nm then some { spec_type := "F", raw_line, name := none }
      else some { spec_type := "F", raw_line, name }
    | none => some { spec_type := "F", raw_line, name }

/-- Models `_parse_fixed_d_spec` on the raw line: minimum length 22, name in
columns 7-21 (0-indexed 6..20) stripped, a leading `*` in the name field
marks a comment line (record kept, name forced absent). -/
def parse_fixed_d_spec_line (raw_line : String) : Option RPGFixedSpec :=
  if raw_line = "" ∨ pyLen raw_line < 22 then none
  else
    let name : Option String := if pyLen raw_line > 6 then some (pyStrip (pySlice raw_line 6 21)) else none
    match truthyOpt name with
    | some nm =>
      if pyStartsWithStar nm then some { spec_type := "D", raw_line, name := none }
      else some { spec_type := "D", raw_line, name }
    | none => some { spec_type := "D", raw_line, name }

/-- Models `_parse_fixed_c_spec` on the raw line: minimum length 7, `*` at
0-indexed position 6 marks a comment line; otherwise the operation code
comes from columns 26-35 (0-indexed 25..34) or, when that is blank and
factor 2 (0-indexed 35..48) is purely alphabetic, from factor 2; the
resolved code becomes both the record's name and its `opcode` keyword. -/
def parse_fixed_c_spec_line (raw_line : String) : Option RPGFixedSpec :=
  if raw_line = "" ∨ pyLen raw_line < 7 then none
  else if pyLen raw_line > 6 ∧ raw_line.toList.get? 6 = some '*' then
    some { spec_type := "C", raw_line, name := none }
  else
    let opcode :=
      if pyLen raw_line > 25 then
        if pyLen raw_line > 34 then pyUpper (pyStrip (pySlice raw_line 25 35))
        else pyUpper (pyStrip (pySlice raw_line 25 (pyLen raw_line)))
      else ""
    let factor2 :=
      if pyLen raw_line > 35 then
        if pyLen raw_line > 48 then pyStrip (pySlice raw_line 35 49)
        else pyStrip (pySlice raw_line 35 (pyLen raw_line))
      else ""
    let opcode :=
      if opcode = "" ∧ factor2 ≠ "" ∧ pyIsAlpha factor2 then pyUpper factor2
      else opcode
    if opcode ≠ "" then
      some { spec_type := "C", raw_line, name := some opcode, keywords := [("opcode", opcode)] }
    else
      some { spec_type := "C", raw_line, name := none, keywords := [] }

/-! ## Free-form entity extraction -/

/-- Models `_extract_file_def`. -/
def extract_file_def (n : Node) (source : String) : Option RPGFileDef :=
  match truthyOpt (getIdentifierName n source) with
  | none => none
  | some name => some { name, keywords := extract_attributes n source }

/-- Models `_extract_constant`: the value preview is the first 50 characters of
the `value` field's text. -/
def extract_constant (n : Node) (source : String) : Option RPGConstant :=
  match truthyOpt (getIdentifierName n source) with
  | none => none
  | some name =>
    let value_preview :=
      match n.childByFieldName "value" with
      | some v => pySlice (node_text v source) 0 50
      | none => ""
    some { name, value_preview }

/-- Models `_extract_data_structure`. -/
def extract_data_structure (n : Node) (source : String) : Option RPGDataStructure :=
  match truthyOpt (getIdentifierName n source) with
  | none => none
  | some name =>
    some { name,
           subfields := (find_nodes_by_type n "subfield_definition").filterMap
             (fun sn => truthyOpt (getIdentifierName sn source)) }

/-- Models `_extract_procedure`: raw call targets are provisionally stored in
`calls_internal`; `calls_external` starts empty and both are rewritten by
the global classification pass. -/
def extract_procedure (n : Node) (source : String) (file_names : List String) : Option RPGProcedure :=
  match truthyOpt (getIdentifierName n source) with
  | none => none
  | some name =>
    some { name,
           params := extract_parameters n source,
           returns := extract_return_type n source,
           calls_internal := find_call_targets n source,
           calls_external := [],
           uses_files := find_file_references n source file_names }

/-! ## Per-file analysis (pass 1) -/

/-- The free-form file definitions of a parsed unit, extracted first
because the reference-lookup name set is derived from them. -/
def freeFormFileDefs (parsed : ParsedFile) : List RPGFileDef :=
  (find_nodes_by_type parsed.root "file_definition").filterMap (extract_file_def · parsed.source)

/-- The fixed-form F-spec records of a parsed unit. -/
def parsedFSpecs (parsed : ParsedFile) : List RPGFixedSpec :=
  (find_nodes_by_type parsed.root "fixed_f_spec").filterMap
    (fun n => parse_fixed_f_spec_line (node_text n parsed.source))

/-- The file-definition entries synthesized from fixed-form F specs with a
truthy name (`_extract_fixed_form_specs` appends them to `file_defs`).
The source stores the spec's keyword dict unchanged; `_parse_fixed_f_spec`
never populates it, so every synthesized entry carries an empty mapping
and the value-shape coercion below is unobservable. -/
def fSpecFileDefs (parsed : ParsedFile) : List RPGFileDef :=
  (parsedFSpecs parsed).filterMap
    (fun spec =>
      match truthyOpt spec.name with
      | some nm => some { name := nm, keywords := spec.keywords.map (fun kv => (kv.1, [kv.2])) }
      | none => none)

/-- Models `_analyze_file`: per-file extraction. The reference-lookup set
`file_names` is computed from the free-form file definitions before
procedures are extracted; fixed-form F-spec file entries are appended to
`file_defs` only afterwards, during fixed-form spec extraction. -/
def analyze_file (parsed : ParsedFile) : RPGFile :=
  let source := parsed.source
  let root := parsed.root
  let file_defs := freeFormFileDefs parsed
  let file_names := file_defs.map (·.name)
  { path := parsed.path,
    procedures := (find_nodes_by_type root "procedure_definition").filterMap
      (fun n => extract_procedure n source file_names),
    subroutines := [],
    file_defs := file_defs ++ fSpecFileDefs parsed,
    constants := (find_nodes_by_type root "constant_definition").filterMap
      (extract_constant · source),
    data_structures := (find_nodes_by_type root "data_structure_definition").filterMap
      (extract_data_structure · source),
    prototypes := (find_nodes_by_type root "procedure_prototype").filterMap
      (fun n => truthyOpt (getIdentifierName n source)),
    fixed_h_specs := (find_nodes_by_type root "fixed_h_spec").filterMap
      (fun n => parse_fixed_spec_line "H" (node_text n source)),
    fixed_f_specs := parsedFSpecs parsed,
    fixed_d_specs := (find_nodes_by_type root "fixed_d_spec").filterMap
      (fun n => parse_fixed_d_spec_line (node_text n source)),
    fixed_c_specs := (find_nodes_by_type root "fixed_c_spec").filterMap
      (fun n => parse_fixed_c_spec_line (node_text n source)),
    fixed_p_specs := (find_nodes_by_type root "fixed_p_spec").filterMap
      (fun n => parse_fixed_spec_line "P" (node_text n source)) }

/-! ## Global call classification (pass 2) -/

/-- The `all_procs` set of `_categorize_calls`: lower-cased names of every
procedure across every file (membership-tested only, so a list models the
Python set). -/
def all_procs (index : ProgramIndex) : List String :=
  index.files.flatMap (fun f => f.procedures.map (fun p => pyLower p.name))

/-- The `external_procs` set of `_categorize_calls`: lower-cased prototype
names across every file. -/
def external_procs (index : ProgramIndex) : List String :=
  index.files.flatMap (fun f => f.prototypes.map pyLower)

/-- The per-procedure classification loop of `_categorize_calls`: a raw
call target goes external when its lower-casing is a declared prototype,
internal when it is a defined procedure, external otherwise. -/
def categorize_loop (externalProcs allProcs : List String) : List String → List String × List String
  | [] => ([], [])
  | call :: rest =>
    let done := categorize_loop externalProcs allProcs rest
    let call_lower := pyLower call
    if externalProcs.contains call_lower then (done.1, call :: done.2)
    else if allProcs.contains call_lower then (call :: done.1, done.2)
    else (done.1, call :: done.2)

/-- Classification of one procedure: its provisional `calls_internal`
(raw targets) is replaced by the classified lists. -/
def categorize_proc (externalProcs allProcs : List String) (proc : RPGProcedure) : RPGProcedure :=
  let classified := categorize_loop externalProcs allProcs proc.calls_internal
  { proc with calls_internal := classified.1, calls_external := classified.2 }

/-- Models `_categorize_calls`: the whole-program second pass. -/
def categorize_calls (index : ProgramIndex) : ProgramIndex :=
  let allP := all_procs index
  let extP := external_procs index
  ⟨index.files.map (fun f => { f with procedures := f.procedures.map (categorize_proc extP allP) })⟩

/-- Pass 1 of `build_index`: one `RPGFile` per parsed unit, input order
preserved. -/
def pass_one (parsed_files : List ParsedFile) : ProgramIndex :=
  ⟨parsed_files.map analyze_file⟩

/-- Models `RPGAnalyzer.build_index`: per-file extraction, then the global call
classification pass. -/
def build_index (parsed_files : List ParsedFile) : ProgramIndex :=
  categorize_calls (pass_one parsed_files)

/-! ## Serialization (`to_dict` / `to_json`)

`ProgramIndex.to_json` is `json.dumps(asdict(self), indent=2)`; the value
universe reached by `asdict` here is nulls, strings, lists and string-keyed
mappings, captured by `JValue`. Field order follows dataclass declaration
order and mapping order follows insertion order, as in the source. -/

inductive JValue where
  | null
  | str (s : String)
  | arr (xs : List JValue)
  | obj (fields : List (String × JValue))

/-- A lowercase hexadecimal digit. -/
def hexDigit (n : Nat) : Char :=
  if n < 10 then Char.ofNat (48 + n) else Char.ofNat (87 + n)

/-- Four lowercase hex digits, as in a JSON `\u` escape. -/
def hex4 (n : Nat) : String :=
  ⟨[hexDigit (n / 4096 % 16), hexDigit (n / 256 % 16), hexDigit (n / 16 % 16), hexDigit (n % 16)]⟩

/-- One character of `json.dumps` output with the default `ensure_ascii`:
shortcut escapes, `\u` escapes for other control and non-ASCII characters,
surrogate pairs beyond the basic plane. -/
def jsonEscapeChar (c : Char) : String :=
  if c = '"' then "\\\""
  else if c = '\\' then "\\\\"
  else if c = '\n' then "\\n"
  else if c = '\t' then "\\t"
  else if c = '\r' then "\\r"
  else if c.toNat = 8 then "\\b"
  else if c.toNat = 12 then "\\f"
  else if c.toNat < 32 then "\\u" ++ hex4 c.toNat
  else if c.toNat < 127 then String.singleton c
  else if c.toNat < 65536 then "\\u" ++ hex4 c.toNat
  else
    let v := c.toNat - 65536
    "\\u" ++ hex4 (55296 + v / 1024) ++ "\\u" ++ hex4 (56320 + v % 1024)

/-- A JSON string literal. -/
def jsonQuote (s : String) : String :=
  "\"" ++ String.join (s.toList.map jsonEscapeChar) ++ "\""

/-- Produces `indent * level` spaces. -/
def padTo (level : Nat) : String :=
  ⟨List.replicate (2 * level) ' '⟩

mutual

/-- Models `json.dumps` with `indent=2` over the reached value universe. -/
def dumpsJson (level : Nat) : JValue → String
  | .null => "null"
  | .str s => jsonQuote s
  | .arr [] => "[]"
  | .arr (x :: xs) =>
    "[\n" ++ String.intercalate ",\n" (dumpsItems (level + 1) (x :: xs)) ++ "\n" ++ padTo level ++ "]"
  | .obj [] => "\x7b\x7d"
  | .obj (kv :: kvs) =>
    "\x7b\n" ++ String.intercalate ",\n" (dumpsFields (level + 1) (kv :: kvs)) ++ "\n" ++ padTo level ++ "\x7d"

def dumpsItems (level : Nat) : List JValue → List String
  | [] => []
  | v :: vs => (padTo level ++ dumpsJson level v) :: dumpsItems level vs

def dumpsFields (level : Nat) : List (String × JValue) → List String
  | [] => []
  | kv :: kvs => (padTo level ++ jsonQuote kv.1 ++ ": " ++ dumpsJson level kv.2) :: dumpsFields level kvs

end

def jStrOpt : Option String → JValue
  | some s => .str s
  | none => .null

def jStrList (l : List String) : JValue :=
  .arr (l.map .str)

def jStrDict (d : List (String × String)) : JValue :=
  .obj (d.map (fun kv => (kv.1, .str kv.2)))

def jArgsDict (d : List (String × List String)) : JValue :=
  .obj (d.map (fun kv => (kv.1, jStrList kv.2)))

def RPGParameter.to_dict (p : RPGParameter) : JValue :=
  .obj [("name", .str p.name), ("type", jStrOpt p.type), ("attributes", jArgsDict p.attributes)]

def RPGFileDef.to_dict (f : RPGFileDef) : JValue :=
  .obj [("name", .str f.name), ("keywords", jArgsDict f.keywords)]

def RPGConstant.to_dict (c : RPGConstant) : JValue :=
  .obj [("name", .str c.name), ("value_preview", .str c.value_preview)]

def RPGDataStructure.to_dict (d : RPGDataStructure) : JValue :=
  .obj [("name", .str d.name), ("subfields", jStrList d.subfields)]

def RPGSubroutine.to_dict (s : RPGSubroutine) : JValue :=
  .obj [("name", .str s.name), ("calls_internal", jStrList s.calls_internal),
        ("calls_external", jStrList s.calls_external), ("uses_files", jStrList s.uses_files)]

def RPGProcedure.to_dict (p : RPGProcedure) : JValue :=
  .obj [("name", .str p.name), ("params", .arr (p.params.map RPGParameter.to_dict)),
        ("returns", jStrOpt p.returns), ("calls_internal", jStrList p.calls_internal),
        ("calls_external", jStrList p.calls_external), ("uses_files", jStrList p.uses_files)]

def RPGFixedSpec.to_dict (s : RPGFixedSpec) : JValue :=
  .obj [("spec_type", .str s.spec_type), ("raw_line", .str s.raw_line),
        ("name", jStrOpt s.name), ("keywords", jStrDict s.keywords)]

def RPGFile.to_dict (f : RPGFile) : JValue :=
  .obj [("path", .str f.path),
        ("procedures", .arr (f.procedures.map RPGProcedure.to_dict)),
        ("subroutines", .arr (f.subroutines.map RPGSubroutine.to_dict)),
        ("file_defs", .arr (f.file_defs.map RPGFileDef.to_dict)),
        ("constants", .arr (f.constants.map RPGConstant.to_dict)),
        ("data_structures", .arr (f.data_structures.map RPGDataStructure.to_dict)),
        ("prototypes", jStrList f.prototypes),
        ("fixed_h_specs", .arr (f.fixed_h_specs.map RPGFixedSpec.to_dict)),
        ("fixed_f_specs", .arr (f.fixed_f_specs.map RPGFixedSpec.to_dict)),
        ("fixed_d_specs", .arr (f.fixed_d_specs.map RPGFixedSpec.to_dict)),
        ("fixed_c_specs", .arr (f.fixed_c_specs.map RPGFixedSpec.to_dict)),
        ("fixed_p_specs", .arr (f.fixed_p_specs.map RPGFixedSpec.to_dict))]

/-- Models `ProgramIndex.to_dict`. -/
def ProgramIndex.to_dict (index : ProgramIndex) : JValue :=
  .obj [("files", .arr (index.files.map RPGFile.to_dict))]

/-- Models `ProgramIndex.to_json` with the default `indent=2`. -/
def ProgramIndex.to_json (index : ProgramIndex) : String :=
  dumpsJson 0 index.to_dict

/-! ## Spec-side companion definitions

`extract_attributes_spec` renders the amended attribute-extraction rule
non-operationally (first identifier grandchild by `find?`, arguments by a
single `filter`), to be proved equal to the loop-based source embedding. -/

/-- Amended attribute rule, written from the specification's words: the
key is the first identifier-kind grandchild lower-cased; the arguments
are the texts, in encounter order, of every grandchild that is neither of
identifier kind nor a delimiter token and whose text is non-empty. -/
def extract_attributes_spec (n : Node) (source : String) : List (String × List String) :=
  n.children.foldl
    (fun attrs c =>
      if c.type = "attribute" then
        let key := (c.children.find? (fun g => attrIdentKind g.type)).map
          (fun g => pyLower (node_text g source))
        let args := (c.children.filter
            (fun g => !attrIdentKind g.type && !attrDelimKind g.type && node_text g source ≠ "")).map
          (node_text · source)
        match key with
        | some nm => if nm = "" then attrs else dictInsert attrs nm args
        | none => attrs
      else attrs)
    []

/-! ## Concrete inputs used by witnesses and counterexamples -/

/-- A prototype declaration node: `ExtSvc`. -/
def exProtoNode : Node :=
  .mk "procedure_prototype" 0 6 [] [.mk "identifier" 0 6 [] []]

/-- A procedure `Main` whose body carries three call sites:
`Helper(...)`, `ExtSvc(...)`, `Nowhere(...)`. -/
def exProcMain : Node :=
  .mk "procedure_definition" 6 29 []
    [.mk "identifier" 6 10 [] [],
     .mk "identifier" 10 16 [] [],
     .mk "paren_group" 16 16 [] [],
     .mk "identifier" 16 22 [] [],
     .mk "paren_group" 22 22 [] [],
     .mk "identifier" 22 29 [] [],
     .mk "paren_group" 29 29 [] []]

/-- A procedure `Helper` with no calls. -/
def exProcHelper : Node :=
  .mk "procedure_definition" 29 35 [] [.mk "identifier" 29 35 [] []]

/-- Root of the call-classification example: the prototype and the two
procedures. `Helper` is both defined and callable, `ExtSvc` is both
called and prototyped, `Nowhere` resolves to nothing. -/
def exRootA : Node :=
  .mk "source_file" 0 35 [] [exProtoNode, exProcMain, exProcHelper]

def exParsedA : ParsedFile :=
  ⟨"a.rpgle", exRootA, "ExtSvcMainHelperExtSvcNowhereHelper"⟩

/-- A parsed unit holding a free-form file definition `DFILE`, a
fixed-form F spec declaring `CUSTF`, and a procedure referencing `DFILE`. -/
def exRootB : Node :=
  .mk "source_file" 0 32 []
    [.mk "file_definition" 17 22 [] [.mk "identifier" 17 22 [] []],
     .mk "fixed_f_spec" 0 17 [] [],
     .mk "procedure_definition" 22 32 []
       [.mk "identifier" 22 27 [] [], .mk "identifier" 27 32 [] []]]

def exParsedB : ParsedFile :=
  ⟨"b.rpgle", exRootB, "     FCUSTF      DFILEPROC1DFILE"⟩

/-- A procedure node whose body references the identifier `CUSTF`. -/
def exProcCNode : Node :=
  .mk "procedure_definition" 17 27 []
    [.mk "identifier" 17 22 [] [], .mk "identifier" 22 27 [] []]

/-- A parsed unit whose only file declaration is the fixed-form F spec
`CUSTF`, plus a procedure whose body references the identifier `CUSTF`. -/
def exRootC : Node :=
  .mk "source_file" 0 27 [] [.mk "fixed_f_spec" 0 17 [] [], exProcCNode]

def exParsedC : ParsedFile :=
  ⟨"c.rpgle", exRootC, "     FCUSTF      PROC1CUSTF"⟩

/-- An attribute subtree with two identifier grandchildren: the key
`dim` and a further identifier argument `x` between delimiters. -/
def exAttrChild : Node :=
  .mk "attribute" 0 4 []
    [.mk "identifier" 0 3 [] [],
     .mk "(" 3 3 [] [],
     .mk "identifier" 3 4 [] [],
     .mk ")" 4 4 [] []]

/-- A node whose single direct child is `exAttrChild`. -/
def exAttrParent : Node :=
  .mk "parameter_definition" 0 4 [] [exAttrChild]

def exAttrSource : String := "dimx"

/-- First-occurrence deduplication by exact (case-sensitive) equality,
written from the specification's words for the file-reference rule. -/
def dedupFirst (l : List String) : List String :=
  l.foldl (fun acc x => if acc.contains x then acc else acc ++ [x]) []

/-- The procedure `Main` as pass 1 extracts it: raw call targets held
provisionally in `calls_internal`. -/
def exMainRaw : RPGProcedure :=
  { name := "Main", calls_internal := ["Helper", "ExtSvc", "Nowhere"] }

/-- The procedure `Main` after global classification. -/
def exMainClassified : RPGProcedure :=
  { name := "Main", calls_internal := ["Helper"], calls_external := ["ExtSvc", "Nowhere"] }

/-- The file record pass 1 produces for `exParsedA`. -/
def exAnalyzedA : RPGFile :=
  { path := "a.rpgle",
    procedures := [exMainRaw, { name := "Helper" }],
    prototypes := ["ExtSvc"] }

/-- The file record `build_index [exParsedA]` produces. -/
def exIndexedA : RPGFile :=
  { path := "a.rpgle",
    procedures := [exMainClassified, { name := "Helper" }],
    prototypes := ["ExtSvc"] }

/-! ## Theorems -/

/-- C4: a fixed-form calculation-spec line of fewer than 7 characters
yields no record; the extractor is a total function, so no exception can
arise. -/
theorem parse_fixed_c_short_line (s : String) (h : pyLen s < 7) :
    parse_fixed_c_spec_line s = none := by
  unfold parse_fixed_c_spec_line
  rw [if_pos (Or.inr h)]

/-- Witness for C4 at the 3-character line `abc`. -/
theorem parse_fixed_c_short_line_witness :
    pyLen "abc" < 7 ∧ parse_fixed_c_spec_line "abc" = none :=
  ⟨by decide, parse_fixed_c_short_line "abc" (by decide)⟩

/-- C8: `build_index` is deterministic: the serialized documents of two
runs on the same ordered input list are byte-identical. The embedding of
the pipeline is a pure function of its input list, so the two runs
produce one and the same document. -/
theorem build_index_deterministic (parsed_files : List ParsedFile) :
    (build_index parsed_files).to_json = (build_index parsed_files).to_json :=
  rfl

/-- C9: no extraction pass populates `subroutines`; every file record in
any built index carries the empty list there. -/
theorem build_index_subroutines_empty (l : List ParsedFile) (f : RPGFile)
    (hf : f ∈ (build_index l).files) : f.subroutines = [] := by
  simp only [build_index, categorize_calls, pass_one, List.mem_map] at hf
  obtain ⟨g, ⟨parsed, hparsed, rfl⟩, rfl⟩ := hf
  rfl

/-- Witness for C9 on the concrete one-file input `exParsedA`. -/
theorem build_index_subroutines_empty_witness :
    exIndexedA ∈ (build_index [exParsedA]).files ∧ exIndexedA.subroutines = [] :=
  ⟨by decide, build_index_subroutines_empty [exParsedA] exIndexedA (by decide)⟩

/-- The internal side of the classification loop is a filter of the raw
target list: kept iff not a prototype and a defined procedure. -/
lemma categorize_loop_fst (extP allP : List String) (calls : List String) :
    (categorize_loop extP allP calls).1 =
      calls.filter (fun c => !extP.contains (pyLower c) && allP.contains (pyLower c)) := by
  induction calls with
  | nil => rfl
  | cons call rest ih =>
    simp only [categorize_loop, List.filter_cons]
    by_cases h1 : pyLower call ∈ extP <;> by_cases h2 : pyLower call ∈ allP <;>
      simp [h1, h2, ih]

/-- The external side of the classification loop is a filter of the raw
target list: kept iff a prototype or not a defined procedure. -/
lemma categorize_loop_snd (extP allP : List String) (calls : List String) :
    (categorize_loop extP allP calls).2 =
      calls.filter (fun c => extP.contains (pyLower c) || !allP.contains (pyLower c)) := by
  induction calls with
  | nil => rfl
  | cons call rest ih =>
    simp only [categorize_loop, List.filter_cons]
    by_cases h1 : pyLower call ∈ extP <;> by_cases h2 : pyLower call ∈ allP <;>
      simp [h1, h2, ih]

/-- Positionally, `build_index` rewrites each pass-1 file by classifying
each of its procedures with the global name sets. -/
lemma build_index_files_get (l : List ParsedFile) (i : Nat) :
    (build_index l).files[i]? = ((pass_one l).files[i]?).map
      (fun f => { f with
        procedures := (f.procedures.map
          (categorize_proc (external_procs (pass_one l)) (all_procs (pass_one l)))) }) := by
  simp [build_index, categorize_calls, List.getElem?_map]

/-- C1: the three-branch call classification rule. For a procedure at
file position `i`, procedure position `j`, and any raw call target `t`
detected in pass 1: a lower-cased match among the prototype names
classifies external (even when the name is also a defined procedure),
otherwise a match among defined procedure names classifies internal,
otherwise the target defaults to external. -/
theorem categorize_three_branch (l : List ParsedFile) (i j : Nat)
    (f f2 : RPGFile) (p p2 : RPGProcedure) (t : String)
    (hf : (pass_one l).files[i]? = some f)
    (hp : f.procedures[j]? = some p)
    (hf2 : (build_index l).files[i]? = some f2)
    (hp2 : f2.procedures[j]? = some p2)
    (ht : t ∈ p.calls_internal) :
    if pyLower t ∈ external_procs (pass_one l) then
      t ∈ p2.calls_external
    else if pyLower t ∈ all_procs (pass_one l) then
      t ∈ p2.calls_internal
    else
      t ∈ p2.calls_external := by
  rw [build_index_files_get, hf, Option.map_some'] at hf2
  obtain rfl := Option.some.inj hf2
  simp only [List.getElem?_map, hp, Option.map_some'] at hp2
  obtain rfl := Option.some.inj hp2
  simp only [categorize_proc, categorize_loop_fst, categorize_loop_snd]
  split_ifs with h1 h2
  · exact List.mem_filter.2 ⟨ht, by simp [h1]⟩
  · exact List.mem_filter.2 ⟨ht, by simp [h1, h2]⟩
  · exact List.mem_filter.2 ⟨ht, by simp [h1, h2]⟩

/-- Witness for C1: in `exParsedA`, the call target `ExtSvc` of `Main` is
prototyped (and resolves externally). -/
theorem categorize_three_branch_witness :
    if pyLower "ExtSvc" ∈ external_procs (pass_one [exParsedA]) then
      "ExtSvc" ∈ exMainClassified.calls_external
    else if pyLower "ExtSvc" ∈ all_procs (pass_one [exParsedA]) then
      "ExtSvc" ∈ exMainClassified.calls_internal
    else
      "ExtSvc" ∈ exMainClassified.calls_external :=
  categorize_three_branch [exParsedA] 0 0 exAnalyzedA exIndexedA exMainRaw exMainClassified
    "ExtSvc" (by decide) (by decide) (by decide) (by decide) (by decide)

/-- C2: after `build_index`, each procedure's classified lists are
disjoint as sets, their union as a set is the set of raw call targets
that pass 1 detected for that procedure, and each list is a sublist of
the raw detection list (original detection order preserved). -/
theorem categorize_partition (l : List ParsedFile) (i j : Nat)
    (f f2 : RPGFile) (p p2 : RPGProcedure)
    (hf : (pass_one l).files[i]? = some f)
    (hp : f.procedures[j]? = some p)
    (hf2 : (build_index l).files[i]? = some f2)
    (hp2 : f2.procedures[j]? = some p2) :
    (∀ t, t ∈ p2.calls_internal → t ∉ p2.calls_external) ∧
    (∀ t, (t ∈ p2.calls_internal ∨ t ∈ p2.calls_external) ↔ t ∈ p.calls_internal) ∧
    p2.calls_internal.Sublist p.calls_internal ∧
    p2.calls_external.Sublist p.calls_internal := by
  rw [build_index_files_get, hf, Option.map_some'] at hf2
  obtain rfl := Option.some.inj hf2
  simp only [List.getElem?_map, hp, Option.map_some'] at hp2
  obtain rfl := Option.some.inj hp2
  simp only [categorize_proc, categorize_loop_fst, categorize_loop_snd]
  refine ⟨?_, ?_, List.filter_sublist _, List.filter_sublist _⟩
  · intro t h1 h2
    have b1 := (List.mem_filter.1 h1).2
    have b2 := (List.mem_filter.1 h2).2
    by_cases he : pyLower t ∈ external_procs (pass_one l) <;>
      by_cases ha : pyLower t ∈ all_procs (pass_one l) <;>
      simp [he, ha] at b1 b2
  · intro t
    constructor
    · rintro (h | h) <;> exact (List.mem_filter.1 h).1
    · intro h
      by_cases h1 : pyLower t ∈ external_procs (pass_one l)
      · exact Or.inr (List.mem_filter.2 ⟨h, by simp [h1]⟩)
      · by_cases h2 : pyLower t ∈ all_procs (pass_one l)
        · exact Or.inl (List.mem_filter.2 ⟨h, by simp [h1, h2]⟩)
        · exact Or.inr (List.mem_filter.2 ⟨h, by simp [h1, h2]⟩)

/-- Witness for C2 at `Main` of `exParsedA`: its classified lists
partition the raw targets `["Helper", "ExtSvc", "Nowhere"]`. -/
theorem categorize_partition_witness :
    (∀ t, t ∈ exMainClassified.calls_internal → t ∉ exMainClassified.calls_external) ∧
    (∀ t, (t ∈ exMainClassified.calls_internal ∨ t ∈ exMainClassified.calls_external) ↔
      t ∈ exMainRaw.calls_internal) ∧
    exMainClassified.calls_internal.Sublist exMainRaw.calls_internal ∧
    exMainClassified.calls_external.Sublist exMainRaw.calls_internal :=
  categorize_partition [exParsedA] 0 0 exAnalyzedA exIndexedA exMainRaw exMainClassified
    (by decide) (by decide) (by decide) (by decide)

/-- A non-empty string built from an explicit cons is not `""`. -/
lemma mk_cons_ne_empty (a : Char) (l : List Char) : String.mk (a :: l) ≠ "" := by
  intro h
  have h2 : (String.mk (a :: l)).data = ("" : String).data := congrArg String.data h
  simp only [String.data] at h2
  exact List.cons_ne_nil a l h2

/-- Dropping a prefix from a list ending in a non-dropped element leaves
that element at the end. -/
lemma dropWhile_append_singleton (p : Char → Bool) (a : Char) (ha : p a = false)
    (m : List Char) : ∃ ys, (List.dropWhile p (m ++ [a])).reverse = a :: ys := by
  induction m with
  | nil =>
    refine ⟨[], ?_⟩
    simp [List.dropWhile_cons, ha]
  | cons x m ih =>
    by_cases hx : p x = true
    · simpa [List.dropWhile_cons, hx] using ih
    · refine ⟨m.reverse ++ [x], ?_⟩
      simp [List.dropWhile_cons, hx]

/-- Stripping a string whose first character is `*` keeps that `*` in
front (a star is not whitespace, so both trims preserve it). -/
lemma pyStripL_cons_star (rest : List Char) : ∃ ys, pyStripL ('*' :: rest) = '*' :: ys := by
  have h : pyIsSpace '*' = false := by decide
  obtain ⟨ys, hy⟩ := dropWhile_append_singleton pyIsSpace '*' h rest.reverse
  refine ⟨ys, ?_⟩
  unfold pyStripL
  rw [List.dropWhile_cons, h]
  simp only [Bool.false_eq_true, if_false, List.reverse_cons]
  exact hy

/-- C3 counterexample: the 7-character definition-spec line `     D*`
carries the comment sigil `*` at 0-indexed column 6, yet extraction
drops it entirely (the line is shorter than the D-spec minimum of 22). -/
theorem fixed_d_short_comment_dropped :
    ("     D*" : String).toList[6]? = some '*' ∧
    parse_fixed_d_spec_line "     D*" = none := by
  constructor <;> decide

/-- C3 amended: a fixed-form comment line always yields a record of its
kind with the raw text and name absent, provided the line meets the
kind's minimum length: at least 22 characters for definition specs
(shorter definition-spec lines are dropped), while for calculation specs
the sigil at 0-indexed position 6 already implies the minimum length 7.
Extraction is a total function, so it never raises. -/
theorem fixed_comment_lines_kept (s : String) :
    (22 ≤ pyLen s → s.toList[6]? = some '*' →
      parse_fixed_d_spec_line s = some { spec_type := "D", raw_line := s, name := none }) ∧
    (s.toList[6]? = some '*' →
      parse_fixed_c_spec_line s = some { spec_type := "C", raw_line := s, name := none }) := by
  constructor
  · intro hlen hstar
    obtain ⟨h6, hget⟩ := List.getElem?_eq_some.1 hstar
    have hne : s ≠ "" := by
      intro h
      rw [h] at hlen
      simp [pyLen] at hlen
    unfold parse_fixed_d_spec_line
    rw [if_neg (by push_neg; exact ⟨hne, by omega⟩)]
    have hgt : pyLen s > 6 := by
      have : pyLen s = s.toList.length := rfl
      omega
    simp only [hgt, if_true, reduceIte]
    have hslice : (pySlice s 6 21).toList = '*' :: ((s.toList.drop 7).take 14) := by
      show (s.toList.drop 6).take 15 = _
      rw [List.drop_eq_getElem_cons h6, hget]
      simp [List.take_succ_cons]
    obtain ⟨ys, hys⟩ := pyStripL_cons_star ((s.toList.drop 7).take 14)
    have hstrip : pyStrip (pySlice s 6 21) = String.mk ('*' :: ys) := by
      unfold pyStrip
      rw [hslice, hys]
    rw [hstrip]
    have hne2 : String.mk ('*' :: ys) ≠ "" := mk_cons_ne_empty '*' ys
    simp only [truthyOpt, hne2, if_false, reduceIte]
    have hsw : pyStartsWithStar (String.mk ('*' :: ys)) = true := rfl
    rw [hsw]
    simp
  · intro hstar
    obtain ⟨h6, _⟩ := List.getElem?_eq_some.1 hstar
    have hlen7 : 7 ≤ pyLen s := by
      have : pyLen s = s.toList.length := rfl
      omega
    have hne : s ≠ "" := by
      intro h
      rw [h] at hlen7
      simp [pyLen] at hlen7
    unfold parse_fixed_c_spec_line
    rw [if_neg (by push_neg; exact ⟨hne, by omega⟩)]
    rw [if_pos ⟨by omega, by simpa [pyLen] using hstar⟩]

/-- Witness for C3 at the 25-character comment line, exercising both the
definition-spec and the calculation-spec branch on the same text. -/
theorem fixed_comment_lines_kept_witness :
    parse_fixed_d_spec_line "     D* This is a comment" =
      some { spec_type := "D", raw_line := "     D* This is a comment", name := none } ∧
    parse_fixed_c_spec_line "     D* This is a comment" =
      some { spec_type := "C", raw_line := "     D* This is a comment", name := none } :=
  ⟨(fixed_comment_lines_kept _).1 (by decide) (by decide),
   (fixed_comment_lines_kept _).2 (by decide)⟩

/-- The attribute loop with the key already resolved: later identifier
grandchildren are ignored entirely and only non-identifier,
non-delimiter, non-empty texts are appended. -/
lemma processAttrChildren_some (source : String) (cs : List Node) :
    ∀ (v : String) (args : List String),
      processAttrChildren source cs (some v) args =
        (some v, args ++ (cs.filter
          (fun g => !attrIdentKind g.type && !attrDelimKind g.type && node_text g source ≠ "")).map
          (node_text · source)) := by
  induction cs with
  | nil => intro v args; simp [processAttrChildren]
  | cons c rest ih =>
    intro v args
    simp only [processAttrChildren, List.filter_cons]
    by_cases h1 : attrIdentKind c.type = true
    · simp [h1, ih]
    · by_cases h2 : attrDelimKind c.type = true
      · simp [h1, h2, ih]
      · by_cases h3 : node_text c source = ""
        · simp [h1, h2, h3, ih]
        · simp [h1, h2, h3, ih]

/-- The attribute loop from the initial state: the key is the first
identifier-kind grandchild (lower-cased) and the arguments are the texts
of the non-identifier, non-delimiter, non-empty-text grandchildren in
encounter order. -/
lemma processAttrChildren_none (source : String) (cs : List Node) :
    ∀ (args : List String),
      processAttrChildren source cs none args =
        ((cs.find? (fun g => attrIdentKind g.type)).map (fun g => pyLower (node_text g source)),
         args ++ (cs.filter
          (fun g => !attrIdentKind g.type && !attrDelimKind g.type && node_text g source ≠ "")).map
          (node_text · source)) := by
  induction cs with
  | nil => intro args; simp [processAttrChildren]
  | cons c rest ih =>
    intro args
    simp only [processAttrChildren, List.filter_cons, List.find?]
    by_cases h1 : attrIdentKind c.type = true
    · simp [h1, processAttrChildren_some]
    · by_cases h2 : attrDelimKind c.type = true
      · simp [h1, h2, ih]
      · by_cases h3 : node_text c source = ""
        · simp [h1, h2, h3, ih]
        · simp [h1, h2, h3, ih]

/-- Folding two pointwise-equal step functions gives equal folds. -/
lemma foldl_congr_fun {α β : Type} (f g : α → β → α) (h : ∀ a b, f a b = g a b) :
    ∀ (l : List β) (a : α), l.foldl f a = l.foldl g a := by
  intro l
  induction l with
  | nil => intro a; rfl
  | cons x xs ih => intro a; rw [List.foldl_cons, List.foldl_cons, h, ih]

/-- Last write wins in the dict model: after `dictInsert`, looking the
key up returns the newly inserted argument list. -/
lemma lookup_dictInsert {α : Type} (d : List (String × α)) (k : String) (v : α) :
    (dictInsert d k v).lookup k = some v := by
  induction d with
  | nil => simp [dictInsert, List.lookup]
  | cons kv rest ih =>
    obtain ⟨a, b⟩ := kv
    by_cases hak : a = k
    · subst hak
      have hcond : ((a, b) :: rest).any (fun kv => kv.1 = a) = true := by simp
      rw [dictInsert, if_pos hcond, List.map_cons]
      have hhead : (if (a, b).1 = a then (a, v) else (a, b)) = (a, v) := by simp
      rw [hhead]
      simp [List.lookup]
    · have hka : (k == a) = false := beq_eq_false_iff_ne.2 (Ne.symm hak)
      by_cases hany : rest.any (fun kv => kv.1 = k) = true
      · have hcond : ((a, b) :: rest).any (fun kv => kv.1 = k) = true := by
          simp only [List.any_cons, hany, Bool.or_true]
        rw [dictInsert, if_pos hcond, List.map_cons]
        have hhead : (if (a, b).1 = k then (k, v) else (a, b)) = (a, b) := by simp [hak]
        rw [hhead]
        have hik := ih
        rw [dictInsert, if_pos hany] at hik
        simpa [List.lookup, hka] using hik
      · have hcond : ¬ ((a, b) :: rest).any (fun kv => kv.1 = k) = true := by
          simp only [List.any_cons, Bool.or_eq_true, decide_eq_true_eq]
          rintro (h | h)
          · exact hak h
          · exact hany h
        rw [dictInsert, if_neg hcond, List.cons_append]
        have hik := ih
        rw [dictInsert, if_neg (by simpa using hany)] at hik
        simpa [List.lookup, hka] using hik

/-- C5 counterexample: in the attribute `dim ( x )`, the grandchild `x`
is of identifier kind, hence not a delimiter token and not the key, yet
its text is not appended: the argument list of `dim` stays empty. -/
theorem second_identifier_grandchild_not_collected :
    exAttrParent.children = [exAttrChild] ∧
    exAttrChild.type = "attribute" ∧
    (exAttrChild.children.map (fun g => (g.type, node_text g exAttrSource))) =
      [("identifier", "dim"), ("(", ""), ("identifier", "x"), (")", "")] ∧
    extract_attributes exAttrParent exAttrSource = [("dim", [])] := by
  refine ⟨rfl, rfl, by decide, by decide⟩

/-- C5 amended: for each attribute child, the first identifier-kind
grandchild (lower-cased) becomes the key; every other grandchild that is
neither of identifier kind nor a delimiter token and whose text is
non-empty contributes its text to the argument list in encounter order;
when two attributes produce the same key the later argument list
overwrites the earlier one (dict lookup returns the last write). -/
theorem extract_attributes_amended :
    (∀ (n : Node) (source : String),
      extract_attributes n source = extract_attributes_spec n source) ∧
    (∀ (d : List (String × List String)) (k : String) (v : List String),
      (dictInsert d k v).lookup k = some v) := by
  constructor
  · intro n source
    unfold extract_attributes extract_attributes_spec
    refine foldl_congr_fun _ _ ?_ n.children []
    intro attrs c
    by_cases hc : c.type = "attribute"
    · simp only [hc, if_true, reduceIte]
      rw [processAttrChildren_none source c.children []]
      cases hfind : c.children.find? (fun g => attrIdentKind g.type) <;> simp
    · simp [hc]
  · exact fun d k v => lookup_dictInsert d k v

/-- The file-reference walk is the first-occurrence dedup fold over the
traversal's identifier texts that match a declared name
case-insensitively. -/
lemma fileRefsWalk_eq_fold (source : String) (lowers : List String) :
    ∀ (ns : List Node) (acc : List String),
      fileRefsWalk source lowers ns acc =
        (((ns.filter (fun c => c.type = "identifier")).map (node_text · source)).filter
          (fun x => lowers.contains (pyLower x))).foldl
          (fun acc2 x => if acc2.contains x then acc2 else acc2 ++ [x]) acc := by
  intro ns
  induction ns with
  | nil => intro acc; rfl
  | cons c rest ih =>
    intro acc
    simp only [fileRefsWalk]
    by_cases hc : c.type = "identifier"
    · by_cases hm : lowers.contains (pyLower (node_text c source)) = true
      · have hm2 : pyLower (node_text c source) ∈ lowers := by simpa using hm
        by_cases hr : node_text c source ∈ acc
        · have hrc : acc.contains (node_text c source) = true := by simpa using hr
          rw [if_pos hc, if_neg (fun h => h.2 hrc), ih acc]
          simp [List.filter_cons, hc, hm2, hr]
        · have hrc : acc.contains (node_text c source) = false := by simpa using hr
          rw [if_pos hc, if_pos ⟨hm, by simpa using hr⟩, ih (acc ++ [node_text c source])]
          simp [List.filter_cons, hc, hm2, hr]
      · have hm2 : pyLower (node_text c source) ∉ lowers := by simpa using hm
        rw [if_pos hc, if_neg (fun h => hm h.1), ih acc]
        simp [List.filter_cons, hc, hm2]
    · rw [if_neg hc, ih acc]
      simp [hc]

/-- Membership in the dedup fold: an element is in the result iff it is
in the accumulator or in the folded list. -/
lemma foldl_dedup_mem :
    ∀ (l : List String) (acc : List String) (x : String),
      x ∈ l.foldl (fun acc2 y => if acc2.contains y then acc2 else acc2 ++ [y]) acc ↔
        x ∈ acc ∨ x ∈ l := by
  intro l
  induction l with
  | nil => intro acc x; simp
  | cons a l ih =>
    intro acc x
    rw [List.foldl_cons, ih]
    by_cases ha : a ∈ acc
    · rw [if_pos (by simpa using ha)]
      constructor
      · rintro (h | h)
        · exact Or.inl h
        · exact Or.inr (List.mem_cons_of_mem a h)
      · rintro (h | h)
        · exact Or.inl h
        · rcases List.mem_cons.1 h with rfl | h
          · exact Or.inl ha
          · exact Or.inr h
    · rw [if_neg (by simpa using ha)]
      simp only [List.mem_append, List.mem_singleton, List.mem_cons]
      tauto

/-- The dedup fold keeps the accumulator duplicate-free. -/
lemma foldl_dedup_nodup :
    ∀ (l : List String) (acc : List String), acc.Nodup →
      (l.foldl (fun acc2 y => if acc2.contains y then acc2 else acc2 ++ [y]) acc).Nodup := by
  intro l
  induction l with
  | nil => intro acc h; exact h
  | cons a l ih =>
    intro acc h
    rw [List.foldl_cons]
    by_cases ha : a ∈ acc
    · rw [if_pos (by simpa using ha)]; exact ih acc h
    · rw [if_neg (by simpa using ha)]
      refine ih _ ?_
      simp only [List.nodup_append, List.nodup_singleton, List.disjoint_singleton]
      exact ⟨h, trivial, by simpa using ha⟩

/-- Characterization of `_find_file_references`: first-occurrence dedup
of the case-insensitively matching identifier texts. -/
lemma find_file_references_eq_dedup (n : Node) (source : String) (file_names : List String) :
    find_file_references n source file_names =
      dedupFirst (((n.preorder.filter (fun c => c.type = "identifier")).map (node_text · source)).filter
        (fun x => (file_names.map pyLower).contains (pyLower x))) := by
  unfold find_file_references dedupFirst
  exact fileRefsWalk_eq_fold source (file_names.map pyLower) n.preorder []

/-- Membership in `_find_file_references`: exactly the identifier texts
of the subtree whose lower-casing matches a declared file name. -/
lemma find_file_references_mem_iff (n : Node) (source : String) (file_names : List String)
    (x : String) :
    x ∈ find_file_references n source file_names ↔
      (x ∈ (n.preorder.filter (fun c => c.type = "identifier")).map (node_text · source) ∧
       (file_names.map pyLower).contains (pyLower x) = true) := by
  rw [find_file_references_eq_dedup]
  unfold dedupFirst
  rw [foldl_dedup_mem]
  simp [List.mem_filter]

/-- C7: `uses_files` detection matches identifier texts
case-insensitively against the declared file names, removes duplicates
by exact case-sensitive equality keeping first-occurrence order (the
result is exactly the first-occurrence dedup of the matching texts in
traversal order), and never repeats an entry; two references differing
only in case are distinct entries, each kept once. -/
theorem find_file_references_spec (n : Node) (source : String) (file_names : List String) :
    find_file_references n source file_names =
      dedupFirst (((n.preorder.filter (fun c => c.type = "identifier")).map (node_text · source)).filter
        (fun x => (file_names.map pyLower).contains (pyLower x))) ∧
    (find_file_references n source file_names).Nodup ∧
    (∀ x, x ∈ find_file_references n source file_names ↔
      (x ∈ (n.preorder.filter (fun c => c.type = "identifier")).map (node_text · source) ∧
       (file_names.map pyLower).contains (pyLower x) = true)) := by
  refine ⟨find_file_references_eq_dedup n source file_names, ?_,
    find_file_references_mem_iff n source file_names⟩
  rw [find_file_references_eq_dedup]
  exact foldl_dedup_nodup _ [] List.nodup_nil

/-- C6 counterexample: in `exParsedC` the fixed-form F spec declares
`CUSTF` and a `CUSTF` identifier occurs inside the only procedure, yet
the procedure's `uses_files` is empty: the F-spec name entered
`file_defs` but not the reference-lookup set, which was fixed from the
(empty) free-form definitions before procedures were extracted. -/
theorem fspec_name_not_in_lookup_counterexample :
    (analyze_file exParsedC).file_defs = [{ name := "CUSTF" }] ∧
    (analyze_file exParsedC).procedures = [{ name := "PROC1" }] ∧
    exProcCNode.preorder.map (fun c => (c.type, node_text c exParsedC.source)) =
      [("procedure_definition", "PROC1CUSTF"), ("identifier", "PROC1"), ("identifier", "CUSTF")] :=
  ⟨by decide, by decide, by decide⟩

/-- C6 amended: every fixed-form file-spec record with a truthy name
contributes a FileDeclaration (name plus the spec's keyword mapping) to
the owning file's `file_defs`, but that name does not participate in the
file-reference lookup set used for the file's procedures: every
`uses_files` entry matches, case-insensitively, a free-form
file-definition name, the set having been fixed before fixed-form specs
were processed. -/
theorem fspec_file_defs_appended_not_looked_up (parsed : ParsedFile) :
    (∀ spec ∈ parsedFSpecs parsed, ∀ nm, truthyOpt spec.name = some nm →
      ({ name := nm, keywords := spec.keywords.map (fun kv => (kv.1, [kv.2])) } : RPGFileDef) ∈
        (analyze_file parsed).file_defs) ∧
    (∀ p ∈ (analyze_file parsed).procedures, ∀ u ∈ p.uses_files,
      ((freeFormFileDefs parsed).map (fun fd => pyLower fd.name)).contains (pyLower u) = true) := by
  constructor
  · intro spec hspec nm hnm
    have hfd : (analyze_file parsed).file_defs =
        freeFormFileDefs parsed ++ fSpecFileDefs parsed := rfl
    rw [hfd]
    refine List.mem_append_right _ ?_
    refine List.mem_filterMap.2 ⟨spec, hspec, ?_⟩
    rw [hnm]
  · intro p hp u hu
    have hprocs : (analyze_file parsed).procedures =
        (find_nodes_by_type parsed.root "procedure_definition").filterMap
          (fun n => extract_procedure n parsed.source
            ((freeFormFileDefs parsed).map (fun fd => fd.name))) := rfl
    rw [hprocs] at hp
    obtain ⟨nd, hnd, hex⟩ := List.mem_filterMap.1 hp
    unfold extract_procedure at hex
    cases hname : truthyOpt (getIdentifierName nd parsed.source) with
    | none => rw [hname] at hex; cases hex
    | some w =>
      rw [hname] at hex
      obtain rfl := Option.some.inj hex
      have hcont := ((find_file_references_mem_iff nd parsed.source
        ((freeFormFileDefs parsed).map (fun fd => fd.name)) u).1 hu).2
      simpa [List.map_map, Function.comp] using hcont

/-- Witness for C6 on `exParsedB`: the F-spec name `CUSTF` lands in
`file_defs`, and the procedure's sole `uses_files` entry `DFILE` matches
a free-form declared name. -/
theorem fspec_file_defs_appended_witness :
    ({ name := "CUSTF" } : RPGFileDef) ∈ (analyze_file exParsedB).file_defs ∧
    ((freeFormFileDefs exParsedB).map (fun fd => pyLower fd.name)).contains (pyLower "DFILE") = true :=
  ⟨(fspec_file_defs_appended_not_looked_up exParsedB).1
      { spec_type := "F", raw_line := "     FCUSTF      ", name := some "CUSTF" }
      (by decide) "CUSTF" (by decide),
   (fspec_file_defs_appended_not_looked_up exParsedB).2
      { name := "PROC1", uses_files := ["DFILE"] } (by decide) "DFILE" (by decide)⟩

/-- The conversion `Char.ofNat` round-trips below the surrogate range. -/
lemma toNat_ofNat_lt (n : Nat) (h : n < 55296) : (Char.ofNat n).toNat = n := by
  have hv : n.isValidChar := Or.inl h
  unfold Char.ofNat
  rw [dif_pos hv]
  rfl

/-- Upper-casing never makes or unmakes whitespace. -/
lemma pyIsSpace_pyCharUpper (c : Char) : pyIsSpace (pyCharUpper c) = pyIsSpace c := by
  unfold pyCharUpper
  by_cases h : 97 ≤ c.toNat ∧ c.toNat ≤ 122
  · rw [if_pos h]
    have h2 : (Char.ofNat (c.toNat - 32)).toNat = c.toNat - 32 := toNat_ofNat_lt _ (by omega)
    have lhs : pyIsSpace (Char.ofNat (c.toNat - 32)) = false := by
      unfold pyIsSpace
      rw [h2]
      simp only [Bool.or_eq_false_iff, decide_eq_false_iff_not]
      omega
    have rhs : pyIsSpace c = false := by
      unfold pyIsSpace
      simp only [Bool.or_eq_false_iff, decide_eq_false_iff_not]
      omega
    rw [lhs, rhs]
  · rw [if_neg h]

/-- ASCII upper-casing is idempotent. -/
lemma pyCharUpper_idem (c : Char) : pyCharUpper (pyCharUpper c) = pyCharUpper c := by
  unfold pyCharUpper
  by_cases h : 97 ≤ c.toNat ∧ c.toNat ≤ 122
  · rw [if_pos h]
    have h2 : (Char.ofNat (c.toNat - 32)).toNat = c.toNat - 32 := toNat_ofNat_lt _ (by omega)
    rw [if_neg (by rw [h2]; omega)]
  · rw [if_neg h, if_neg h]

/-- Stripping commutes with per-character upper-casing. -/
lemma pyStripL_map_upper (l : List Char) :
    pyStripL (l.map pyCharUpper) = (pyStripL l).map pyCharUpper := by
  have hcomp : (pyIsSpace ∘ pyCharUpper) = pyIsSpace := funext pyIsSpace_pyCharUpper
  unfold pyStripL
  rw [List.dropWhile_map, hcomp, ← List.map_reverse, List.dropWhile_map, hcomp,
    ← List.map_reverse]

/-- Python `strip` and `upper` commute at string level. -/
lemma pyStrip_pyUpper_comm (s : String) : pyStrip (pyUpper s) = pyUpper (pyStrip s) := by
  show String.mk (pyStripL (s.toList.map pyCharUpper)) =
    String.mk ((pyStripL s.toList).map pyCharUpper)
  rw [pyStripL_map_upper]

/-- Python `upper` is idempotent at string level. -/
lemma pyUpper_idem (s : String) : pyUpper (pyUpper s) = pyUpper s := by
  show String.mk ((s.toList.map pyCharUpper).map pyCharUpper) =
    String.mk (s.toList.map pyCharUpper)
  rw [List.map_map, show pyCharUpper ∘ pyCharUpper = pyCharUpper from funext pyCharUpper_idem]

/-- The head of a `dropWhile` residue fails the predicate. -/
lemma head_false_of_dropWhile (p : Char → Bool) (l : List Char) (a : Char) (as : List Char)
    (h : l.dropWhile p = a :: as) : p a = false := by
  have h2 := List.head?_dropWhile_not p l
  rw [h] at h2
  simpa using h2

/-- A list whose head (if any) fails the predicate is untouched by
`dropWhile`. -/
lemma dropWhile_eq_self_of_head (p : Char → Bool) (l : List Char)
    (h : ∀ a as, l = a :: as → p a = false) : l.dropWhile p = l := by
  cases l with
  | nil => rfl
  | cons a as => rw [List.dropWhile_cons, h a as rfl]; simp

/-- Stripping is idempotent at list level. -/
lemma pyStripL_idem (l : List Char) : pyStripL (pyStripL l) = pyStripL l := by
  have hstep : (pyStripL l).dropWhile pyIsSpace = pyStripL l := by
    apply dropWhile_eq_self_of_head
    intro a as h
    have hsuff : (l.dropWhile pyIsSpace).reverse.dropWhile pyIsSpace <:+
        (l.dropWhile pyIsSpace).reverse := List.dropWhile_suffix _
    have hpre : pyStripL l <+: l.dropWhile pyIsSpace := by
      have h2 := hsuff.reverse
      rwa [List.reverse_reverse] at h2
    obtain ⟨t, ht⟩ := hpre
    rw [h] at ht
    exact head_false_of_dropWhile pyIsSpace l a (as ++ t) (by rw [← ht]; rfl)
  show (((pyStripL l).dropWhile pyIsSpace).reverse.dropWhile pyIsSpace).reverse = pyStripL l
  rw [hstep]
  show ((((l.dropWhile pyIsSpace).reverse.dropWhile pyIsSpace).reverse).reverse.dropWhile
    pyIsSpace).reverse = pyStripL l
  rw [List.reverse_reverse, List.dropWhile_idempotent]
  rfl

/-- Stripping is idempotent at string level. -/
lemma pyStrip_idem (s : String) : pyStrip (pyStrip s) = pyStrip s := by
  show String.mk (pyStripL (pyStripL s.toList)) = String.mk (pyStripL s.toList)
  rw [pyStripL_idem]

/-- The value `upper (strip w)` is a fixed point of `upper ∘ strip`. -/
lemma pyUpper_pyStrip_canonical (w : String) :
    pyUpper (pyStrip (pyUpper (pyStrip w))) = pyUpper (pyStrip w) := by
  rw [pyStrip_pyUpper_comm, pyUpper_idem, pyStrip_idem]

/-- C10: a calculation-spec record with a resolved name carries that name
stripped and upper-cased (it is its own `upper ∘ strip` normal form) and
a keyword mapping holding exactly `opcode ↦ name`; a record without a
name has an empty keyword mapping. -/
theorem parse_fixed_c_opcode_canonical (s : String) (spec : RPGFixedSpec)
    (h : parse_fixed_c_spec_line s = some spec) :
    (∀ nm, spec.name = some nm → nm = pyUpper (pyStrip nm) ∧ spec.keywords = [("opcode", nm)]) ∧
    (spec.name = none → spec.keywords = []) := by
  unfold parse_fixed_c_spec_line at h
  simp only [ne_eq] at h
  split_ifs at h
  all_goals first
    | (obtain rfl := Option.some.inj h
       refine ⟨fun nm hnm => ?_, fun hn => Option.noConfusion hn⟩
       obtain rfl := Option.some.inj hnm
       exact ⟨(pyUpper_pyStrip_canonical _).symm, rfl⟩)
    | (obtain rfl := Option.some.inj h
       exact ⟨fun nm hnm => Option.noConfusion hnm, fun _ => rfl⟩)
    | (exfalso; simp_all)

/-- Witness for C10 at the `eval` calculation line: the resolved name is
`EVAL`, its own strip-upper normal form, with the matching `opcode`
keyword. -/
theorem parse_fixed_c_opcode_canonical_witness :
    ("EVAL" : String) = pyUpper (pyStrip "EVAL") ∧
    ({ spec_type := "C", raw_line := "     C                   eval      *inlr = *on",
       name := some "EVAL", keywords := [("opcode", "EVAL")] } : RPGFixedSpec).keywords =
      [("opcode", "EVAL")] :=
  (parse_fixed_c_opcode_canonical "     C                   eval      *inlr = *on"
    { spec_type := "C", raw_line := "     C                   eval      *inlr = *on",
      name := some "EVAL", keywords := [("opcode", "EVAL")] }
    (by decide)).1 "EVAL" rfl
